import Mathlib

/-
Verification development for the MultiLLMCollectiveMemory repository.

The definitions below are a shallow embedding of the memory subsystem:
`src/memory_systems/base_memory.py` (the `MemoryEntry` data model and the
access log), `src/memory_systems/private_memory.py` (`PrivateMemorySystem`),
`src/memory_systems/shared_memory.py` (`SharedMemorySystem`, modelled in its
keyword-fallback configuration, i.e. with `collection = None`), and
`src/enhanced_collective_memory.py` (`IntelligentInsightFilter`,
`DomainSpecificMemory`, `MemoryFederation`).

Modelling conventions:
* Python floats become `ℚ` (the scores in the repository are averages and
  fixed decimal weights; no claim hinges on binary rounding).
* `datetime` values become `Nat`; the current time is passed explicitly as a
  `now` parameter where the Python code calls `datetime.now()`.
* Python strings are Lean `String`; `str.lower()` is modelled for ASCII.
* The JSON dict that backs a store becomes an insertion-ordered association
  list `List (String × StoredRecord)`; Python dict assignment, lookup and
  deletion are `dictSet`, `dictGet?`, `dictRemove`.
* `metadata` is an association list of string keys to the string rendering
  of the value (the code only ever uses `str(v)` of a metadata value).
* Operations are total functions returning their result together with the
  new store state; the Python I/O error branches (which only fire on file
  system failure) are not represented.
-/

namespace MultiLLM

/-- Lowercasing of one character as Python's `str.lower` acts on ASCII. -/
def lowerChar (c : Char) : Char :=
  if 'A' ≤ c ∧ c ≤ 'Z' then Char.ofNat (c.toNat + 32) else c

/-- Model of Python `s.lower()` (ASCII). -/
def pyLower (s : String) : String := ⟨s.data.map lowerChar⟩

/-- Prefix test on character lists. -/
def isPrefixL : List Char → List Char → Bool
  | [], _ => true
  | _ :: _, [] => false
  | a :: as, b :: bs => a == b && isPrefixL as bs

/-- Contiguous-substring test on character lists: model of Python `n in h`. -/
def isInfixL (n : List Char) : List Char → Bool
  | [] => n.isEmpty
  | b :: bs => isPrefixL n (b :: bs) || isInfixL n bs

/-- Association-list lookup: Python `d[k]` / `d.get(k)`. -/
def dictGet? : List (String × α) → String → Option α
  | [], _ => none
  | p :: ps, k => if p.1 == k then some p.2 else dictGet? ps k

/-- Association-list key test: Python `k in d`. -/
def dictHasKey (d : List (String × α)) (k : String) : Bool :=
  d.any (fun p => p.1 == k)

/-- Association-list assignment: Python `d[k] = v` (overwrite in place,
keep position; append at the end for a new key). -/
def dictSet (d : List (String × α)) (k : String) (v : α) : List (String × α) :=
  if dictHasKey d k then d.map (fun p => if p.1 == k then (k, v) else p)
  else d ++ [(k, v)]

/-- Association-list deletion: Python `del d[k]`. -/
def dictRemove (d : List (String × α)) (k : String) : List (String × α) :=
  d.filter (fun p => p.1 != k)

/-- Values appearing in an access-log detail map. -/
inductive DetailVal where
  | dStr (v : String)
  | dNat (v : Nat)
  | dBool (v : Bool)
  | dStrList (v : List String)
deriving DecidableEq

/-- One record of the append-only access log
(`BaseMemorySystem.log_access` in `base_memory.py`). -/
structure LogRecord where
  operation : String
  agent_id : String
  details : List (String × DetailVal)
deriving DecidableEq

/-- The `MemoryEntry` dataclass of `base_memory.py`. -/
structure MemoryEntry where
  id : String
  content : String
  metadata : List (String × String)
  timestamp : Nat
  agent_id : String
  tags : List String
  importance_score : ℚ
deriving DecidableEq

/-- The persisted JSON record for one entry: the six fields written by
`store` in both `private_memory.py` and `shared_memory.py`. -/
structure StoredRecord where
  content : String
  metadata : List (String × String)
  timestamp : Nat
  agent_id : String
  tags : List String
  importance_score : ℚ
deriving DecidableEq

/-- The record persisted for an entry by `store`. -/
def recordOfEntry (e : MemoryEntry) : StoredRecord :=
  ⟨e.content, e.metadata, e.timestamp, e.agent_id, e.tags, e.importance_score⟩

/-- The `MemoryEntry` reconstructed from a persisted record by `retrieve`. -/
def entryOfRecord (id : String) (r : StoredRecord) : MemoryEntry :=
  ⟨id, r.content, r.metadata, r.timestamp, r.agent_id, r.tags, r.importance_score⟩

/-- State of a `PrivateMemorySystem`: the bound owner identity, the durable
JSON map, and the access log. -/
structure PrivState where
  agent_id : String
  data : List (String × StoredRecord)
  access_log : List LogRecord
deriving DecidableEq

/-- Append one access-log record (`log_access`). -/
def privLog (st : PrivState) (op agent : String)
    (details : List (String × DetailVal)) : PrivState :=
  {st with access_log := st.access_log ++ [⟨op, agent, details⟩]}

/-- `PrivateMemorySystem.store`. -/
def privStore (st : PrivState) (e : MemoryEntry) : Bool × PrivState :=
  if e.agent_id ≠ st.agent_id then
    (false, privLog st "store_denied" e.agent_id
      [("entry_id", .dStr e.id), ("reason", .dStr "cross_agent_access_denied")])
  else
    (true, privLog {st with data := dictSet st.data e.id (recordOfEntry e)}
      "store" e.agent_id
      [("entry_id", .dStr e.id), ("content_length", .dNat e.content.length),
       ("tags", .dStrList e.tags)])

/-- The match predicate of `PrivateMemorySystem.retrieve`: the lower-cased
query occurs in the lower-cased content, or some lower-cased tag occurs in
the lower-cased query, or the lower-cased query occurs in the string
rendering of some metadata value. -/
def privMatch (q : String) (r : StoredRecord) : Bool :=
  isInfixL (pyLower q).data (pyLower r.content).data
  || r.tags.any (fun t => isInfixL (pyLower t).data (pyLower q).data)
  || r.metadata.any (fun kv => isInfixL (pyLower q).data (pyLower kv.2).data)

/-- The match predicate of the keyword fallback of
`SharedMemorySystem.retrieve` (content substring or tag-in-query; no
metadata clause). -/
def sharedMatchB (q : String) (r : StoredRecord) : Bool :=
  isInfixL (pyLower q).data (pyLower r.content).data
  || r.tags.any (fun t => isInfixL (pyLower t).data (pyLower q).data)

/-- Sort key of `PrivateMemorySystem.retrieve`:
`key=lambda x: (x.importance_score, x.timestamp)`. -/
def privKey (e : MemoryEntry) : ℚ × Nat := (e.importance_score, e.timestamp)

/-- Lexicographic order on (importance, timestamp) pairs, as Python compares
the key tuples. -/
def tupLe (a b : ℚ × Nat) : Prop := a.1 < b.1 ∨ (a.1 = b.1 ∧ a.2 ≤ b.2)

instance : DecidableRel tupLe := fun a b =>
  decidable_of_iff (a.1 < b.1 ∨ (a.1 = b.1 ∧ a.2 ≤ b.2)) Iff.rfl

/-- Descending comparison used by the private store's `sort(..., reverse=True)`. -/
def privDesc (a b : MemoryEntry) : Prop := tupLe (privKey b) (privKey a)

instance : DecidableRel privDesc := fun a b =>
  decidable_of_iff (tupLe (privKey b) (privKey a)) Iff.rfl

instance : IsTotal MemoryEntry privDesc where
  total a b := by
    rcases lt_trichotomy (privKey b).1 (privKey a).1 with h | h | h
    · exact Or.inl (Or.inl h)
    · rcases le_total (privKey b).2 (privKey a).2 with h2 | h2
      · exact Or.inl (Or.inr ⟨h, h2⟩)
      · exact Or.inr (Or.inr ⟨h.symm, h2⟩)
    · exact Or.inr (Or.inl h)

instance : IsTrans MemoryEntry privDesc where
  trans a b c hab hbc := by
    rcases hab with h1 | ⟨h1, h1'⟩
    · rcases hbc with h2 | ⟨h2, _⟩
      · exact Or.inl (h2.trans h1)
      · exact Or.inl (h2 ▸ h1)
    · rcases hbc with h2 | ⟨h2, h2'⟩
      · exact Or.inl (h1 ▸ h2)
      · exact Or.inr ⟨h2.trans h1, h2'.trans h1'⟩

/-- Descending comparison used by the shared fallback's
`sort(key=lambda x: x.importance_score, reverse=True)`. -/
def sharedDesc (a b : MemoryEntry) : Prop :=
  b.importance_score ≤ a.importance_score

instance : DecidableRel sharedDesc := fun a b =>
  decidable_of_iff (b.importance_score ≤ a.importance_score) Iff.rfl

instance : IsTotal MemoryEntry sharedDesc where
  total a b := le_total b.importance_score a.importance_score

instance : IsTrans MemoryEntry sharedDesc where
  trans _ _ _ hab hbc := hbc.trans hab

/-- `PrivateMemorySystem.retrieve`. -/
def privRetrieve (st : PrivState) (q agent : String) (lim : Nat) :
    List MemoryEntry × PrivState :=
  if agent ≠ st.agent_id then
    ([], privLog st "retrieve_denied" agent
      [("query", .dStr q), ("reason", .dStr "cross_agent_access_denied")])
  else
    let matched := (st.data.filter (fun p => privMatch q p.2)).map
      (fun p => entryOfRecord p.1 p.2)
    let results := (List.insertionSort privDesc matched).take lim
    (results, privLog st "retrieve" agent
      [("query", .dStr q), ("results_found", .dNat results.length),
       ("cross_agent_access", .dBool false), ("limit", .dNat lim)])

/-- Typed view of one key/value pair in the `updates` dict passed to
`update`. A pair whose key is one of the six persisted field names and whose
value has the field's type is represented by the corresponding constructor;
`other k` represents a pair whose key `k` is not a field of the persisted
record (such a pair fails the `if key in data[entry_id]` test and is
ignored). -/
inductive FieldUpd where
  | content (v : String)
  | metadata (v : List (String × String))
  | timestamp (v : Nat)
  | agent_id (v : String)
  | tags (v : List String)
  | importance_score (v : ℚ)
  | other (k : String)
deriving DecidableEq

/-- The dict key of an update pair (as reported in the `updates` log detail). -/
def FieldUpd.key : FieldUpd → String
  | .content _ => "content"
  | .metadata _ => "metadata"
  | .timestamp _ => "timestamp"
  | .agent_id _ => "agent_id"
  | .tags _ => "tags"
  | .importance_score _ => "importance_score"
  | .other k => k

/-- Whether an update pair targets a key that is not a persisted field. -/
def FieldUpd.isOther : FieldUpd → Bool
  | .other _ => true
  | _ => false

/-- Apply one update pair to a persisted record (the body of the
`for key, value in updates.items()` loop). -/
def applyUpd (r : StoredRecord) : FieldUpd → StoredRecord
  | .content v => {r with content := v}
  | .metadata v => {r with metadata := v}
  | .timestamp v => {r with timestamp := v}
  | .agent_id v => {r with agent_id := v}
  | .tags v => {r with tags := v}
  | .importance_score v => {r with importance_score := v}
  | .other _ => r

/-- The record after an `update` call: every pair applied in order, then
`data[entry_id]['timestamp'] = datetime.now().isoformat()`. -/
def updatedRecord (r : StoredRecord) (upds : List FieldUpd) (now : Nat) :
    StoredRecord :=
  {upds.foldl applyUpd r with timestamp := now}

/-- `PrivateMemorySystem.update`. -/
def privUpdate (st : PrivState) (entry_id : String) (upds : List FieldUpd)
    (now : Nat) : Bool × PrivState :=
  match dictGet? st.data entry_id with
  | none => (false, st)
  | some r =>
    if r.agent_id ≠ st.agent_id then (false, st)
    else
      (true, privLog
        {st with data := dictSet st.data entry_id (updatedRecord r upds now)}
        "update" st.agent_id
        [("entry_id", .dStr entry_id),
         ("updates", .dStrList (upds.map FieldUpd.key))])

/-- `PrivateMemorySystem.delete`. -/
def privDelete (st : PrivState) (entry_id : String) : Bool × PrivState :=
  match dictGet? st.data entry_id with
  | none => (false, st)
  | some r =>
    if r.agent_id ≠ st.agent_id then (false, st)
    else
      (true, privLog {st with data := dictRemove st.data entry_id}
        "delete" st.agent_id [("entry_id", .dStr entry_id)])

/-- State of a `SharedMemorySystem` running without a similarity backend
(`collection = None`): the durable JSON map and the access log. -/
structure SharedState where
  data : List (String × StoredRecord)
  access_log : List LogRecord
deriving DecidableEq

/-- Append one access-log record (`log_access`). -/
def shLog (st : SharedState) (op agent : String)
    (details : List (String × DetailVal)) : SharedState :=
  {st with access_log := st.access_log ++ [⟨op, agent, details⟩]}

/-- `SharedMemorySystem.store` (JSON part; the ChromaDB branch is skipped
when no backend is configured). -/
def sharedStore (st : SharedState) (e : MemoryEntry) : Bool × SharedState :=
  (true, shLog {st with data := dictSet st.data e.id (recordOfEntry e)}
    "store" e.agent_id
    [("entry_id", .dStr e.id), ("content_length", .dNat e.content.length),
     ("tags", .dStrList e.tags)])

/-- `SharedMemorySystem.retrieve`, keyword-fallback branch. -/
def sharedRetrieve (st : SharedState) (q agent : String) (lim : Nat) :
    List MemoryEntry × SharedState :=
  let matched := (st.data.filter (fun p => sharedMatchB q p.2)).map
    (fun p => entryOfRecord p.1 p.2)
  let results := (List.insertionSort sharedDesc matched).take lim
  let cross := results.any (fun e => e.agent_id != agent)
  (results, shLog st "retrieve" agent
    [("query", .dStr q), ("results_found", .dNat results.length),
     ("cross_agent_access", .dBool cross), ("limit", .dNat lim)])

/-- `SharedMemorySystem.update` (JSON part; the ChromaDB branch is skipped
when no backend is configured). The log record's agent identity is read from
the record after the updates were applied, as in the source. -/
def sharedUpdate (st : SharedState) (entry_id : String) (upds : List FieldUpd)
    (now : Nat) : Bool × SharedState :=
  match dictGet? st.data entry_id with
  | none => (false, st)
  | some r =>
    let r2 := updatedRecord r upds now
    (true, shLog {st with data := dictSet st.data entry_id r2}
      "update" r2.agent_id
      [("entry_id", .dStr entry_id),
       ("updates", .dStrList (upds.map FieldUpd.key))])

/-- The six domain-signal terms of
`IntelligentInsightFilter.calculate_insight_quality`. -/
def specific_terms : List String :=
  ["algorithm", "pattern", "optimization", "error", "solution", "approach"]

/-- The seven action words of
`IntelligentInsightFilter.calculate_insight_quality`. -/
def action_words : List String :=
  ["implement", "use", "apply", "consider", "avoid", "ensure", "check"]

/-- Length factor: `min(1.0, len/200) * (1 - max(0, (len - 500) / 1000))`. -/
def lengthScore (n : Nat) : ℚ :=
  min 1 ((n : ℚ) / 200) * (1 - max 0 (((n : ℚ) - 500) / 1000))

/-- Specificity factor: fraction of `specific_terms` occurring (lower-cased)
in the lower-cased insight. -/
def specificityScore (insight : String) : ℚ :=
  ((specific_terms.filter
      (fun t => isInfixL (pyLower t).data (pyLower insight).data)).length : ℚ)
    / (specific_terms.length : ℚ)

/-- Code-presence factor: 1.0 if the raw insight contains a code marker,
else 0.5. -/
def codeScore (insight : String) : ℚ :=
  if isInfixL "```".data insight.data || isInfixL "def ".data insight.data
      || isInfixL "class ".data insight.data then 1 else 1/2

/-- Actionability factor: number of `action_words` occurring (lower-cased)
in the lower-cased insight, divided by 3 and capped at 1. -/
def actionScore (insight : String) : ℚ :=
  min 1 (((action_words.filter
      (fun w => isInfixL (pyLower w).data (pyLower insight).data)).length : ℚ) / 3)

/-- `IntelligentInsightFilter.calculate_insight_quality`: `np.mean` of the
four quality factors in order. The `context` argument is unused, as in the
source. -/
def calculate_insight_quality (insight context : String) : ℚ :=
  (lengthScore insight.length + specificityScore insight + codeScore insight
    + actionScore insight) / 4

/-- Word characters of the regex `\w` (ASCII). -/
def isWordChar (c : Char) : Bool := c.isAlphanum || c == '_'

/-- Maximal runs of word characters, as `re.findall(r'\w+', s)`. The second
argument accumulates the current run in reverse. -/
def tokensAux : List Char → List Char → List String
  | [], acc => if acc.isEmpty then [] else [⟨acc.reverse⟩]
  | c :: cs, acc =>
    if isWordChar c then tokensAux cs (c :: acc)
    else if acc.isEmpty then tokensAux cs []
    else ⟨acc.reverse⟩ :: tokensAux cs []

/-- The set of lower-cased word tokens of a string
(`set(re.findall(r'\w+', s.lower()))`). -/
def wordSet (s : String) : Finset String :=
  (tokensAux (pyLower s).data []).toFinset

/-- `IntelligentInsightFilter._calculate_context_similarity`: token-set
Jaccard similarity, 0 when either side has no tokens. -/
def calculate_context_similarity (insight context : String) : ℚ :=
  if wordSet insight = ∅ ∨ wordSet context = ∅ then 0
  else if wordSet insight ∪ wordSet context = ∅ then 0
  else ((wordSet insight ∩ wordSet context).card : ℚ)
        / ((wordSet insight ∪ wordSet context).card : ℚ)

/-- A candidate passed to `filter_insights`. The Python code accepts both
plain `MemoryEntry` objects and `EnhancedMemoryEntry` objects and probes
`success_rate` / `usage_count` with `getattr` defaults; the `Option` fields
model whether the attribute is present. `quality_score` and
`context_similarity` are set on every candidate by the filter itself. -/
structure FilterCand extends MemoryEntry where
  domain : String := "general"
  quality_score : ℚ := 0
  context_similarity : ℚ := 0
  success_rate? : Option ℚ := none
  usage_count? : Option Nat := none
deriving DecidableEq

/-- The in-place scoring pass at the top of
`IntelligentInsightFilter.filter_insights`. -/
def scoreCand (context : String) (i : FilterCand) : FilterCand :=
  {i with quality_score := calculate_insight_quality i.content context,
          context_similarity := calculate_context_similarity i.content context}

/-- The combined ranking score of `filter_insights`:
quality 0.4, context similarity 0.3, success rate 0.2 (getattr default 1.0),
usage bonus 0.1 capped at `usage_count/10` (getattr default 0). -/
def combinedScore (x : FilterCand) : ℚ :=
  x.quality_score * (0.4 : ℚ) + x.context_similarity * (0.3 : ℚ)
    + (x.success_rate?.getD 1) * (0.2 : ℚ)
    + min 1 (((x.usage_count?.getD 0) : ℚ) / 10) * (0.1 : ℚ)

/-- Descending comparison used by the filter's
`sort(key=..., reverse=True)`. -/
def filterDesc (a b : FilterCand) : Prop := combinedScore b ≤ combinedScore a

instance : DecidableRel filterDesc := fun a b =>
  decidable_of_iff (combinedScore b ≤ combinedScore a) Iff.rfl

instance : IsTotal FilterCand filterDesc where
  total a b := le_total (combinedScore b) (combinedScore a)

instance : IsTrans FilterCand filterDesc where
  trans _ _ _ hab hbc := hbc.trans hab

/-- Configuration of an `IntelligentInsightFilter`. -/
structure InsightFilter where
  min_quality_score : ℚ := 0.2
  max_insights : Nat := 5

/-- `IntelligentInsightFilter.filter_insights`: score every candidate, keep
those with `quality_score >= min_quality_score`, sort by the combined score
descending, return the first `max_insights`. -/
def filter_insights (f : InsightFilter) (insights : List FilterCand)
    (context : String) : List FilterCand :=
  let scored := insights.map (scoreCand context)
  let filtered := scored.filter
    (fun i => f.min_quality_score ≤ i.quality_score)
  (List.insertionSort filterDesc filtered).take f.max_insights

/-- `DomainSpecificMemory.domain_patterns`, in declaration order. -/
def domain_patterns : List (String × List String) :=
  [("algorithms",
      ["sort", "search", "tree", "graph", "dynamic programming", "recursion"]),
   ("data_structures", ["list", "dict", "array", "stack", "queue", "heap"]),
   ("string_processing", ["string", "text", "parse", "regex", "format"]),
   ("mathematics",
      ["math", "calculation", "formula", "number", "factorial", "prime"]),
   ("validation", ["validate", "check", "verify", "test", "assert", "error"]),
   ("optimization",
      ["optimize", "efficient", "performance", "speed", "memory usage"])]

/-- Score of one domain: the number of its keywords occurring in the
lower-cased content (`cl` is already lower-cased; the keywords are written
in lower case in the source and are used verbatim). -/
def domainScore (cl : String) (pats : List String) : Nat :=
  (pats.filter (fun p => isInfixL p.data cl.data)).length

/-- Python's `max(items, key=lambda x: x[1])` over a nonempty list: keep the
current best, replace only on a strictly greater score, so the first maximal
item wins. -/
def maxFirst : (String × Nat) → List (String × Nat) → (String × Nat)
  | best, [] => best
  | best, x :: xs => maxFirst (if best.2 < x.2 then x else best) xs

/-- The positive domain scores in declaration order: Python's
`domain_scores` dict, as a list of (domain, score) pairs. -/
def domainScores (content : String) : List (String × Nat) :=
  domain_patterns.filterMap (fun dp =>
    if 0 < domainScore (pyLower content) dp.2
    then some (dp.1, domainScore (pyLower content) dp.2) else none)

/-- `DomainSpecificMemory.classify_domain`. -/
def classify_domain (content : String) : String :=
  match domainScores content with
  | [] => "general"
  | x :: xs => (maxFirst x xs).1

/-- Maximum of a list of naturals. -/
def listMaxNat (l : List Nat) : Nat := l.foldr max 0

/-- Specification-side restatement of `classify_domain`, following the
spec's words: compute every domain's keyword-count score, keep the positive
ones in declaration order, and return the first domain attaining the highest
score, or "general" when no keyword matches. Used to check the code's
argmax loop against the spec's description. -/
def classifySpec (content : String) : String :=
  match (domainScores content).find?
      (fun p => p.2 == listMaxNat ((domainScores content).map Prod.snd)) with
  | some p => p.1
  | none => "general"

/-- The `EnhancedMemoryEntry` dataclass of `enhanced_collective_memory.py`. -/
structure EnhancedMemoryEntry extends MemoryEntry where
  domain : String := "general"
  quality_score : ℚ := 0
  usage_count : Nat := 0
  success_rate : ℚ := 0
  context_similarity : ℚ := 0
  federation_source : Option String := none
deriving DecidableEq

/-- One serialized insight inside a federation bundle. -/
structure BundleRecord where
  content : String
  domain : String
  quality_score : ℚ
  success_rate : ℚ
  tags : List String
  metadata : List (String × String)
deriving DecidableEq

/-- A federation export bundle
(`{organization_id, timestamp, insights}`). -/
structure Bundle where
  organization_id : String
  timestamp : Nat
  insights : List BundleRecord
deriving DecidableEq

/-- Serialization of one insight for export. -/
def bundleRecordOf (i : EnhancedMemoryEntry) : BundleRecord :=
  ⟨i.content, i.domain, i.quality_score, i.success_rate, i.tags, i.metadata⟩

/-- `MemoryFederation.export_insights`: serialize the insights whose
`quality_score` meets the configured threshold. -/
def export_insights (quality_threshold : ℚ)
    (insights : List EnhancedMemoryEntry) (organization_id : String)
    (now : Nat) : Bundle :=
  { organization_id := organization_id, timestamp := now,
    insights := (insights.filter
        (fun i => quality_threshold ≤ i.quality_score)).map bundleRecordOf }

/-- State of a `DomainSpecificMemory`: the lazily created per-domain shared
stores, keyed by domain name. -/
structure DomainPool where
  stores : List (String × SharedState)
deriving DecidableEq

/-- A freshly created per-domain `SharedMemorySystem` (empty map, empty
log). -/
def emptySharedState : SharedState := ⟨[], []⟩

/-- `DomainSpecificMemory.get_domain_memory`: return the cached store for
the domain, creating (and caching) an empty one on first request. -/
def getDomainMemory (p : DomainPool) (d : String) : SharedState × DomainPool :=
  match dictGet? p.stores d with
  | some st => (st, p)
  | none => (emptySharedState, ⟨p.stores ++ [(d, emptySharedState)]⟩)

/-- `DomainSpecificMemory.store_domain_insight`: classify the content,
overwrite the insight's `domain` field, and store the insight in that
domain's shared store. Returns the store result, the mutated insight object
and the new pool. -/
def store_domain_insight (p : DomainPool) (insight : EnhancedMemoryEntry) :
    Bool × EnhancedMemoryEntry × DomainPool :=
  let d := classify_domain insight.content
  let i2 := {insight with domain := d}
  let (st, p1) := getDomainMemory p d
  let (ok, st') := sharedStore st i2.toMemoryEntry
  (ok, i2, ⟨dictSet p1.stores d st'⟩)

/-- The `EnhancedMemoryEntry` constructed by `import_insights` for one
bundle record: fresh id, `agent_id="federated"`, current time,
`federation_source` set to the bundle's organization; the dataclass defaults
fill `importance_score`, `usage_count` and `context_similarity`. -/
def mkImported (org : String) (now : Nat) (fid : String) (rec : BundleRecord) :
    EnhancedMemoryEntry :=
  { id := fid, content := rec.content, metadata := rec.metadata,
    timestamp := now, agent_id := "federated", tags := rec.tags,
    importance_score := 0, domain := rec.domain,
    quality_score := rec.quality_score, usage_count := 0,
    success_rate := rec.success_rate, context_similarity := 0,
    federation_source := some org }

/-- The import loop of `MemoryFederation.import_insights`: `k` indexes the
fresh-id supply, and the successful inserts are counted. The list of insight
objects as mutated by `store_domain_insight` is returned alongside. -/
def importGo (org : String) (now : Nat) (fresh : Nat → String) :
    Nat → DomainPool → List BundleRecord →
      Nat × List EnhancedMemoryEntry × DomainPool
  | _, p, [] => (0, [], p)
  | k, p, rec :: rest =>
    let (ok, i2, p') := store_domain_insight p (mkImported org now (fresh k) rec)
    let (cnt, stored, p'') := importGo org now fresh (k + 1) p' rest
    ((if ok then 1 else 0) + cnt, i2 :: stored, p'')

/-- `MemoryFederation.import_insights`: construct an entry per bundle record
(the fresh uuid supply is modelled by `fresh`) and insert each through
`store_domain_insight`, returning the count actually inserted. -/
def import_insights (bundle : Bundle) (pool : DomainPool)
    (fresh : Nat → String) (now : Nat) :
    Nat × List EnhancedMemoryEntry × DomainPool :=
  importGo bundle.organization_id now fresh 0 pool bundle.insights

/-! Helper lemmas about the association-list dictionary model. -/

theorem mem_dictSet_self (d : List (String × α)) (k : String) (v : α) :
    (k, v) ∈ dictSet d k v := by
  by_cases h : dictHasKey d k
  · simp only [dictSet, if_pos h]
    unfold dictHasKey at h
    rw [List.any_eq_true] at h
    obtain ⟨p, hp, hpk⟩ := h
    exact List.mem_map.mpr ⟨p, hp, by simp [hpk]⟩
  · simp [dictSet, if_neg h]

theorem dictSet_length_le (d : List (String × α)) (k : String) (v : α) :
    (dictSet d k v).length ≤ d.length + 1 := by
  unfold dictSet
  split
  · simp
  · simp

theorem dictGet?_setAll (k : String) (v : α) :
    ∀ d : List (String × α), dictHasKey d k = true →
      dictGet? (d.map (fun p => if p.1 == k then (k, v) else p)) k = some v := by
  intro d
  induction d with
  | nil => intro h; simp [dictHasKey] at h
  | cons p ps ih =>
    intro h
    cases hc : (p.1 == k) with
    | true => simp [dictGet?, hc]
    | false =>
      have hps : dictHasKey ps k = true := by
        simpa [dictHasKey, hc] using h
      simp only [List.map_cons, hc, Bool.false_eq_true, if_false, dictGet?]
      exact ih hps

theorem dictGet?_not_hasKey (d : List (String × α)) (k : String)
    (h : dictHasKey d k = false) : dictGet? d k = none := by
  induction d with
  | nil => rfl
  | cons p ps ih =>
    cases hc : (p.1 == k) with
    | true => simp [dictHasKey, hc] at h
    | false =>
      have hps : dictHasKey ps k = false := by
        simpa [dictHasKey, hc] using h
      simp only [dictGet?, hc, Bool.false_eq_true, if_false]
      exact ih hps

theorem dictGet?_append_of_none (d e : List (String × α)) (k : String)
    (h : dictGet? d k = none) :
    dictGet? (d ++ e) k = dictGet? e k := by
  induction d with
  | nil => rfl
  | cons p ps ih =>
    cases hc : (p.1 == k) with
    | true => simp [dictGet?, hc] at h
    | false =>
      simp only [dictGet?, hc, Bool.false_eq_true, if_false] at h
      simp only [List.cons_append, dictGet?, hc, Bool.false_eq_true, if_false]
      exact ih h

theorem dictGet?_append_single_ne (x : String × α) (k : String)
    (h : (x.1 == k) = false) :
    ∀ d : List (String × α), dictGet? (d ++ [x]) k = dictGet? d k := by
  intro d
  induction d with
  | nil => simp [dictGet?, h]
  | cons p ps ih =>
    cases hc : (p.1 == k) with
    | true => simp [dictGet?, hc]
    | false =>
      simp only [List.cons_append, dictGet?, hc, Bool.false_eq_true, if_false]
      exact ih

theorem dictGet?_dictSet_self (d : List (String × α)) (k : String) (v : α) :
    dictGet? (dictSet d k v) k = some v := by
  by_cases h : dictHasKey d k
  · simp only [dictSet, if_pos h]
    exact dictGet?_setAll k v d h
  · simp only [dictSet, if_neg h]
    rw [dictGet?_append_of_none _ _ _
      (dictGet?_not_hasKey d k (by simpa using h))]
    simp [dictGet?]

theorem dictGet?_mapSet_ne (k k' : String) (v : α) (h : k' ≠ k) :
    ∀ d : List (String × α),
      dictGet? (d.map (fun p => if p.1 == k then (k, v) else p)) k'
        = dictGet? d k' := by
  have hkk' : ((k : String) == k') = false := by
    simp only [beq_eq_false_iff_ne, ne_eq]
    exact fun hh => h hh.symm
  intro d
  induction d with
  | nil => rfl
  | cons p ps ih =>
    cases hc : (p.1 == k) with
    | true =>
      have hp1 : p.1 = k := by simpa using hc
      have h2 : (p.1 == k') = false := by rw [hp1]; exact hkk'
      simp only [List.map_cons, hc, if_true, dictGet?, hkk', h2,
        Bool.false_eq_true, if_false]
      exact ih
    | false =>
      simp only [List.map_cons, hc, Bool.false_eq_true, if_false, dictGet?, ih]

theorem dictGet?_dictSet_ne (d : List (String × α)) (k k' : String) (v : α)
    (h : k' ≠ k) :
    dictGet? (dictSet d k v) k' = dictGet? d k' := by
  by_cases hk : dictHasKey d k
  · simp only [dictSet, if_pos hk]
    exact dictGet?_mapSet_ne k k' v h d
  · simp only [dictSet, if_neg hk]
    exact dictGet?_append_single_ne (k, v) k'
      (by simp only [beq_eq_false_iff_ne, ne_eq]; exact fun hh => h hh.symm) d

/-! Helper lemmas about records and updates. -/

theorem entryOfRecord_recordOfEntry (e : MemoryEntry) :
    entryOfRecord e.id (recordOfEntry e) = e := rfl

theorem foldl_applyUpd_agent_id :
    ∀ (upds : List FieldUpd) (r : StoredRecord),
      (∀ u ∈ upds, FieldUpd.key u ≠ "agent_id") →
      (upds.foldl applyUpd r).agent_id = r.agent_id := by
  intro upds
  induction upds with
  | nil => intro r _; rfl
  | cons u us ih =>
    intro r h
    have hu := h u (List.mem_cons_self u us)
    have hus : ∀ x ∈ us, FieldUpd.key x ≠ "agent_id" :=
      fun x hx => h x (List.mem_cons_of_mem _ hx)
    rw [List.foldl_cons, ih _ hus]
    cases u with
    | agent_id v => exact absurd rfl hu
    | content v => rfl
    | metadata v => rfl
    | timestamp v => rfl
    | tags v => rfl
    | importance_score v => rfl
    | other k => rfl

theorem updatedRecord_agent_id (r : StoredRecord) (upds : List FieldUpd)
    (now : Nat) (h : ∀ u ∈ upds, FieldUpd.key u ≠ "agent_id") :
    (updatedRecord r upds now).agent_id = r.agent_id :=
  foldl_applyUpd_agent_id upds r h

theorem foldl_applyUpd_other :
    ∀ (upds : List FieldUpd) (r : StoredRecord),
      upds.all FieldUpd.isOther = true → upds.foldl applyUpd r = r := by
  intro upds
  induction upds with
  | nil => intro r _; rfl
  | cons u us ih =>
    intro r h
    rw [List.all_cons, Bool.and_eq_true] at h
    have hr : applyUpd r u = r := by
      cases u with
      | other k => rfl
      | content v => simp [FieldUpd.isOther] at h
      | metadata v => simp [FieldUpd.isOther] at h
      | timestamp v => simp [FieldUpd.isOther] at h
      | agent_id v => simp [FieldUpd.isOther] at h
      | tags v => simp [FieldUpd.isOther] at h
      | importance_score v => simp [FieldUpd.isOther] at h
    rw [List.foldl_cons, hr]
    exact ih r h.2

theorem privMatch_of_sharedMatchB (q : String) (r : StoredRecord)
    (h : sharedMatchB q r = true) : privMatch q r = true := by
  unfold sharedMatchB at h
  unfold privMatch
  rw [h]
  rfl

/-- C1: For every Private Store bound to owner identity A, every identity
B ≠ A, every query and every limit, a retrieve call issued as B returns the
empty list, appends exactly one access-log record with operation
"retrieve_denied" and reason "cross_agent_access_denied", raises no
exception (the model is a total function), and leaves the durable contents
unchanged. -/
theorem private_retrieve_cross_agent_denied (st : PrivState) (b q : String)
    (lim : Nat) (hb : b ≠ st.agent_id) :
    (privRetrieve st q b lim).1 = []
    ∧ (privRetrieve st q b lim).2.data = st.data
    ∧ (privRetrieve st q b lim).2.access_log
        = st.access_log
          ++ [⟨"retrieve_denied", b,
               [("query", .dStr q),
                ("reason", .dStr "cross_agent_access_denied")]⟩] := by
  simp [privRetrieve, hb, privLog]

/-- Witness for C1 at the spec's concrete scenario: owner `qa_engineer`,
caller `engineer`. -/
theorem private_retrieve_cross_agent_denied_witness :
    ("engineer" : String) ≠ "qa_engineer"
    ∧ (privRetrieve
        ⟨"qa_engineer", [("x1", ⟨"entry X", [], 0, "qa_engineer", [], 1⟩)], []⟩
        "any query" "engineer" 10).1 = [] :=
  ⟨by decide,
   (private_retrieve_cross_agent_denied
      ⟨"qa_engineer", [("x1", ⟨"entry X", [], 0, "qa_engineer", [], 1⟩)], []⟩
      "engineer" "any query" 10 (by decide)).1⟩

/-- C3 counterexample: a denied private `update`/`delete` (record written by
`B`, store owned by `A`) returns false and leaves the state — including the
access log — completely unchanged: no `*_denied` log record is appended,
contrary to the claim. -/
theorem private_denied_update_not_logged_cex :
    privUpdate ⟨"A", [("e1", ⟨"c", [], 0, "B", [], 0⟩)], []⟩ "e1" [] 5
      = (false, ⟨"A", [("e1", ⟨"c", [], 0, "B", [], 0⟩)], []⟩)
    ∧ privDelete ⟨"A", [("e1", ⟨"c", [], 0, "B", [], 0⟩)], []⟩ "e1"
      = (false, ⟨"A", [("e1", ⟨"c", [], 0, "B", [], 0⟩)], []⟩) := by
  constructor <;> rfl

/-- C3 (amended): a private `update` or `delete` whose targeted record's
writer is not the owner returns false, raises no exception, and leaves the
durable state and the access log entirely unchanged; unlike denied `store`
and `retrieve`, the denial is not logged. -/
theorem private_update_delete_foreign_denied (st : PrivState) (id : String)
    (upds : List FieldUpd) (now : Nat) (r : StoredRecord)
    (hget : dictGet? st.data id = some r)
    (hforeign : r.agent_id ≠ st.agent_id) :
    privUpdate st id upds now = (false, st)
    ∧ privDelete st id = (false, st) := by
  constructor
  · simp [privUpdate, hget, hforeign]
  · simp [privDelete, hget, hforeign]

/-- Witness for the amended C3. -/
theorem private_update_delete_foreign_denied_witness :
    dictGet? ([("e1", (⟨"c", [], 0, "B", [], 0⟩ : StoredRecord))]) "e1"
        = some ⟨"c", [], 0, "B", [], 0⟩
    ∧ ("B" : String) ≠ "A"
    ∧ privUpdate ⟨"A", [("e1", ⟨"c", [], 0, "B", [], 0⟩)], []⟩ "e1"
        [FieldUpd.content "new"] 5
      = (false, ⟨"A", [("e1", ⟨"c", [], 0, "B", [], 0⟩)], []⟩) :=
  ⟨by decide, by decide,
   (private_update_delete_foreign_denied
      ⟨"A", [("e1", ⟨"c", [], 0, "B", [], 0⟩)], []⟩ "e1"
      [FieldUpd.content "new"] 5 ⟨"c", [], 0, "B", [], 0⟩
      (by decide) (by decide)).1⟩

/-- C4 counterexample: an entry stored with `agent_id = "alice"` has its
persisted `agent_id` changed by `update(entry_id, {"agent_id": "bob"})` —
`agent_id` is one of the record's keys, so the update loop overwrites it. -/
theorem agent_id_mutable_cex :
    (dictGet? (sharedUpdate
        (sharedStore ⟨[], []⟩ ⟨"e1", "c", [], 0, "alice", [], 0⟩).2
        "e1" [FieldUpd.agent_id "bob"] 7).2.data "e1").map
      StoredRecord.agent_id ≠ some "alice" := by
  decide

/-- C4 (amended): the persisted `agent_id` of an entry never changes under
`update` calls whose update map does not contain the key "agent_id"; this
holds for both the Shared and the Private Store (an update map that does
contain that key overwrites the field, as the counterexample shows). -/
theorem update_preserves_agent_id_without_key
    (stS : SharedState) (stP : PrivState) (id : String)
    (upds : List FieldUpd) (now : Nat)
    (hkeys : ∀ u ∈ upds, FieldUpd.key u ≠ "agent_id") :
    ((dictGet? (sharedUpdate stS id upds now).2.data id).map
        StoredRecord.agent_id
      = (dictGet? stS.data id).map StoredRecord.agent_id)
    ∧ ((dictGet? (privUpdate stP id upds now).2.data id).map
        StoredRecord.agent_id
      = (dictGet? stP.data id).map StoredRecord.agent_id) := by
  constructor
  · cases hS : dictGet? stS.data id with
    | none => simp [sharedUpdate, hS]
    | some r =>
      simp only [sharedUpdate, hS, shLog]
      rw [dictGet?_dictSet_self]
      simp [updatedRecord_agent_id r upds now hkeys]
  · cases hP : dictGet? stP.data id with
    | none => simp [privUpdate, hP]
    | some r =>
      by_cases hown : r.agent_id = stP.agent_id
      · simp only [privUpdate, hP, privLog]
        rw [if_neg (by simp [hown])]
        simp only
        rw [dictGet?_dictSet_self]
        simp [updatedRecord_agent_id r upds now hkeys]
      · simp [privUpdate, hP, hown]

/-- Witness for the amended C4. -/
theorem update_preserves_agent_id_without_key_witness :
    (∀ u ∈ [FieldUpd.content "new", FieldUpd.other "quality_score"],
        FieldUpd.key u ≠ "agent_id")
    ∧ ((dictGet? (sharedUpdate ⟨[("e1", ⟨"c", [], 0, "alice", [], 0⟩)], []⟩
          "e1" [FieldUpd.content "new", FieldUpd.other "quality_score"] 7).2.data
          "e1").map StoredRecord.agent_id
        = (dictGet? [("e1", (⟨"c", [], 0, "alice", [], 0⟩ : StoredRecord))]
            "e1").map StoredRecord.agent_id) :=
  ⟨by decide,
   (update_preserves_agent_id_without_key
      ⟨[("e1", ⟨"c", [], 0, "alice", [], 0⟩)], []⟩ ⟨"x", [], []⟩ "e1"
      [FieldUpd.content "new", FieldUpd.other "quality_score"] 7
      (by decide)).1⟩

/-- C10: `update` on an existing record (owned by the caller in the private
case) returns true even when no update key applies, applies only the keys
that exist as fields of the persisted record (an update map consisting
solely of unknown keys changes nothing but the timestamp), always overwrites
the record's timestamp with the current time, and leaves every other record
unchanged. -/
theorem update_semantics
    (stS : SharedState) (stP : PrivState) (id : String)
    (upds : List FieldUpd) (now : Nat) (rS rP : StoredRecord)
    (hS : dictGet? stS.data id = some rS)
    (hP : dictGet? stP.data id = some rP)
    (hOwn : rP.agent_id = stP.agent_id) :
    ((sharedUpdate stS id upds now).1 = true
      ∧ dictGet? (sharedUpdate stS id upds now).2.data id
          = some (updatedRecord rS upds now)
      ∧ (∀ id', id' ≠ id →
          dictGet? (sharedUpdate stS id upds now).2.data id'
            = dictGet? stS.data id')
      ∧ (updatedRecord rS upds now).timestamp = now
      ∧ (upds.all FieldUpd.isOther = true →
          updatedRecord rS upds now = {rS with timestamp := now}))
    ∧ ((privUpdate stP id upds now).1 = true
      ∧ dictGet? (privUpdate stP id upds now).2.data id
          = some (updatedRecord rP upds now)
      ∧ (∀ id', id' ≠ id →
          dictGet? (privUpdate stP id upds now).2.data id'
            = dictGet? stP.data id')) := by
  refine ⟨⟨?_, ?_, ?_, rfl, ?_⟩, ⟨?_, ?_, ?_⟩⟩
  · simp [sharedUpdate, hS]
  · simp only [sharedUpdate, hS, shLog]
    exact dictGet?_dictSet_self _ _ _
  · intro id' hne
    simp only [sharedUpdate, hS, shLog]
    exact dictGet?_dictSet_ne _ _ _ _ hne
  · intro h
    unfold updatedRecord
    rw [foldl_applyUpd_other upds rS h]
  · simp [privUpdate, hP, hOwn]
  · simp only [privUpdate, hP, privLog]
    rw [if_neg (by simp [hOwn])]
    exact dictGet?_dictSet_self _ _ _
  · intro id' hne
    simp only [privUpdate, hP, privLog]
    rw [if_neg (by simp [hOwn])]
    exact dictGet?_dictSet_ne _ _ _ _ hne

/-- Witness for C10. -/
theorem update_semantics_witness :
    dictGet? ([("e1", (⟨"c", [], 0, "A", [], 0⟩ : StoredRecord))]) "e1"
        = some ⟨"c", [], 0, "A", [], 0⟩
    ∧ ("A" : String) = "A"
    ∧ (sharedUpdate ⟨[("e1", ⟨"c", [], 0, "A", [], 0⟩)], []⟩ "e1"
        [FieldUpd.other "quality_score"] 9).1 = true :=
  ⟨by decide, rfl,
   (update_semantics ⟨[("e1", ⟨"c", [], 0, "A", [], 0⟩)], []⟩
      ⟨"A", [("e1", ⟨"c", [], 0, "A", [], 0⟩)], []⟩ "e1"
      [FieldUpd.other "quality_score"] 9
      ⟨"c", [], 0, "A", [], 0⟩ ⟨"c", [], 0, "A", [], 0⟩
      (by decide) (by decide) rfl).1.1⟩

/-- C2: after a successful `store(e)` (Shared Store on the keyword-fallback
path, or Private Store with the owner storing and retrieving), a retrieve
whose lower-cased query occurs in the entry's lower-cased content or which
contains one of the entry's lower-cased tags, with a limit at least the
store's size, returns the entry `e` itself — id, content, metadata,
agent_id, tags, timestamp and importance_score all unchanged (the persisted
record holds exactly these fields, so nothing else survives a round trip). -/
theorem store_then_retrieve_returns_entry
    (stS : SharedState) (stP : PrivState) (e : MemoryEntry) (q a : String)
    (lim : Nat)
    (hmatch : sharedMatchB q (recordOfEntry e) = true)
    (howner : e.agent_id = stP.agent_id)
    (hlimS : stS.data.length + 1 ≤ lim)
    (hlimP : stP.data.length + 1 ≤ lim) :
    ((sharedStore stS e).1 = true
      ∧ e ∈ (sharedRetrieve (sharedStore stS e).2 q a lim).1)
    ∧ ((privStore stP e).1 = true
      ∧ e ∈ (privRetrieve (privStore stP e).2 q e.agent_id lim).1) := by
  have hmemS : (e.id, recordOfEntry e) ∈ dictSet stS.data e.id (recordOfEntry e) :=
    mem_dictSet_self _ _ _
  have hmemP : (e.id, recordOfEntry e) ∈ dictSet stP.data e.id (recordOfEntry e) :=
    mem_dictSet_self _ _ _
  have hpm : privMatch q (recordOfEntry e) = true :=
    privMatch_of_sharedMatchB q (recordOfEntry e) hmatch
  refine ⟨⟨rfl, ?_⟩, ⟨?_, ?_⟩⟩
  · -- shared store round trip
    have h1 : (sharedRetrieve (sharedStore stS e).2 q a lim).1
        = (List.insertionSort sharedDesc
            (((dictSet stS.data e.id (recordOfEntry e)).filter
                (fun p => sharedMatchB q p.2)).map
              (fun p => entryOfRecord p.1 p.2))).take lim := rfl
    rw [h1]
    have hlen : (List.insertionSort sharedDesc
        (((dictSet stS.data e.id (recordOfEntry e)).filter
            (fun p => sharedMatchB q p.2)).map
          (fun p => entryOfRecord p.1 p.2))).length ≤ lim := by
      rw [List.length_insertionSort, List.length_map]
      exact le_trans (le_trans (List.length_filter_le _ _)
        (dictSet_length_le _ _ _)) hlimS
    rw [List.take_of_length_le hlen]
    refine (List.perm_insertionSort sharedDesc _).mem_iff.mpr ?_
    exact List.mem_map.mpr ⟨(e.id, recordOfEntry e),
      List.mem_filter.mpr ⟨hmemS, hmatch⟩, entryOfRecord_recordOfEntry e⟩
  · simp [privStore, howner]
  · -- private store round trip (by the owner)
    have hag : (privStore stP e).2.agent_id = stP.agent_id := by
      simp [privStore, howner, privLog]
    have hdata : (privStore stP e).2.data
        = dictSet stP.data e.id (recordOfEntry e) := by
      simp [privStore, howner, privLog]
    have h1 : (privRetrieve (privStore stP e).2 q e.agent_id lim).1
        = (List.insertionSort privDesc
            ((((privStore stP e).2.data).filter (fun p => privMatch q p.2)).map
              (fun p => entryOfRecord p.1 p.2))).take lim := by
      rw [privRetrieve, if_neg (by rw [hag, howner]; exact fun hh => hh rfl)]
    rw [h1, hdata]
    have hlen : (List.insertionSort privDesc
        (((dictSet stP.data e.id (recordOfEntry e)).filter
            (fun p => privMatch q p.2)).map
          (fun p => entryOfRecord p.1 p.2))).length ≤ lim := by
      rw [List.length_insertionSort, List.length_map]
      exact le_trans (le_trans (List.length_filter_le _ _)
        (dictSet_length_le _ _ _)) hlimP
    rw [List.take_of_length_le hlen]
    refine (List.perm_insertionSort privDesc _).mem_iff.mpr ?_
    exact List.mem_map.mpr ⟨(e.id, recordOfEntry e),
      List.mem_filter.mpr ⟨hmemP, hpm⟩, entryOfRecord_recordOfEntry e⟩

/-- Witness for C2: an entry stored into an empty private store by its
owner is returned by a content-matching query. -/
theorem store_then_retrieve_returns_entry_witness :
    sharedMatchB "use binary search"
        (recordOfEntry ⟨"e1", "Use binary search", [], 3, "A", ["algorithms"], 1⟩)
      = true
    ∧ (⟨"e1", "Use binary search", [], 3, "A", ["algorithms"], 1⟩ : MemoryEntry)
        ∈ (privRetrieve
            (privStore ⟨"A", [], []⟩
              ⟨"e1", "Use binary search", [], 3, "A", ["algorithms"], 1⟩).2
            "use binary search"
            (⟨"e1", "Use binary search", [], 3, "A", ["algorithms"], 1⟩ :
              MemoryEntry).agent_id 1).1 :=
  ⟨by decide,
   (store_then_retrieve_returns_entry ⟨[], []⟩ ⟨"A", [], []⟩
      ⟨"e1", "Use binary search", [], 3, "A", ["algorithms"], 1⟩
      "use binary search" "anyone" 1 (by decide) rfl
      (by decide) (by decide)).2.2⟩

/-- C9 counterexample: over the same single record — content "abc", one
metadata value "xyz" — the owner's private retrieve for query "xyz" returns
the record (metadata values are searched), while the shared keyword fallback
returns nothing; the two retrieval semantics are not identical. -/
theorem private_shared_retrieval_differ_cex :
    (privRetrieve ⟨"A", [("e1", ⟨"abc", [("k", "xyz")], 0, "A", [], 0⟩)], []⟩
        "xyz" "A" 10).1
      ≠ (sharedRetrieve ⟨[("e1", ⟨"abc", [("k", "xyz")], 0, "A", [], 0⟩)], []⟩
        "xyz" "A" 10).1 := by
  decide

/-- C9 (amended): the Private Store's owner retrieve and the Shared Store's
keyword fallback are not identical — the private match predicate
additionally searches metadata values, and the private sort key is
(importance_score, timestamp) rather than importance_score alone. What does
hold: every record matched by the shared fallback predicate is matched by
the private predicate, and both paths return at most `limit` entries sorted
by importance_score descending. -/
theorem private_shared_retrieval_relation
    (stP : PrivState) (stS : SharedState) (q a : String) (lim : Nat) :
    (∀ r : StoredRecord, sharedMatchB q r = true → privMatch q r = true)
    ∧ (privRetrieve stP q stP.agent_id lim).1.length ≤ lim
    ∧ (sharedRetrieve stS q a lim).1.length ≤ lim
    ∧ List.Pairwise
        (fun x y : MemoryEntry => y.importance_score ≤ x.importance_score)
        (privRetrieve stP q stP.agent_id lim).1
    ∧ List.Pairwise
        (fun x y : MemoryEntry => y.importance_score ≤ x.importance_score)
        (sharedRetrieve stS q a lim).1 := by
  have hP1 : (privRetrieve stP q stP.agent_id lim).1
      = (List.insertionSort privDesc
          ((stP.data.filter (fun p => privMatch q p.2)).map
            (fun p => entryOfRecord p.1 p.2))).take lim := by
    rw [privRetrieve, if_neg (fun hh => hh rfl)]
  have hS1 : (sharedRetrieve stS q a lim).1
      = (List.insertionSort sharedDesc
          ((stS.data.filter (fun p => sharedMatchB q p.2)).map
            (fun p => entryOfRecord p.1 p.2))).take lim := rfl
  refine ⟨fun r h => privMatch_of_sharedMatchB q r h, ?_, ?_, ?_, ?_⟩
  · rw [hP1]; exact List.length_take_le _ _
  · rw [hS1]; exact List.length_take_le _ _
  · rw [hP1]
    refine List.Pairwise.sublist (List.take_sublist _ _) ?_
    refine List.Pairwise.imp ?_ (List.sorted_insertionSort privDesc _)
    intro x y hxy
    rcases hxy with hlt | ⟨heq, _⟩
    · exact le_of_lt hlt
    · exact le_of_eq heq
  · rw [hS1]
    exact List.Pairwise.sublist (List.take_sublist _ _)
      (List.sorted_insertionSort sharedDesc _)

/-- Witness for the amended C9: a record matching the shared fallback
predicate also matches the private predicate. -/
theorem private_shared_retrieval_relation_witness :
    sharedMatchB "sort" (⟨"use sort", [], 0, "A", [], 0⟩ : StoredRecord) = true
    ∧ privMatch "sort" (⟨"use sort", [], 0, "A", [], 0⟩ : StoredRecord) = true :=
  ⟨by decide,
   (private_shared_retrieval_relation ⟨"A", [], []⟩ ⟨[], []⟩ "sort" "a" 5).1
     ⟨"use sort", [], 0, "A", [], 0⟩ (by decide)⟩

/-! Helper lemmas for the quality-score bounds and counterexample. -/

theorem specificityScore_bounds (insight : String) :
    0 ≤ specificityScore insight ∧ specificityScore insight ≤ 1 := by
  unfold specificityScore
  constructor
  · positivity
  · have h : (List.filter
        (fun t => isInfixL (pyLower t).data (pyLower insight).data)
        specific_terms).length ≤ 6 := by
      have h0 := List.length_filter_le
        (fun t => isInfixL (pyLower t).data (pyLower insight).data)
        specific_terms
      simpa [specific_terms] using h0
    rw [show ((specific_terms.length : Nat) : ℚ) = 6 by norm_num [specific_terms]]
    rw [div_le_one (by norm_num)]
    exact_mod_cast h

theorem codeScore_cases (insight : String) :
    codeScore insight = 1 ∨ codeScore insight = 1/2 := by
  unfold codeScore
  split
  · exact Or.inl rfl
  · exact Or.inr rfl

theorem actionScore_bounds (insight : String) :
    0 ≤ actionScore insight ∧ actionScore insight ≤ 1 := by
  unfold actionScore
  exact ⟨le_min (by norm_num) (by positivity), min_le_left _ _⟩

theorem context_similarity_bounds (i c : String) :
    0 ≤ calculate_context_similarity i c
    ∧ calculate_context_similarity i c ≤ 1 := by
  unfold calculate_context_similarity
  split_ifs with h1 h2
  · norm_num
  · norm_num
  · constructor
    · positivity
    · have hunion : (0 : ℚ) < ((wordSet i ∪ wordSet c).card : ℚ) := by
        have hne : (wordSet i ∪ wordSet c).Nonempty :=
          Finset.nonempty_iff_ne_empty.mpr h2
        exact_mod_cast Finset.card_pos.mpr hne
      rw [div_le_one hunion]
      exact_mod_cast Finset.card_le_card
        (Finset.Subset.trans Finset.inter_subset_left Finset.subset_union_left)

theorem lengthScore_le_one (n : Nat) : lengthScore n ≤ 1 := by
  unfold lengthScore
  have h1 : (0:ℚ) ≤ min 1 ((n:ℚ)/200) := le_min (by norm_num) (by positivity)
  have h2 : 1 - max 0 (((n:ℚ) - 500)/1000) ≤ 1 := by
    have h3 := le_max_left (0:ℚ) (((n:ℚ) - 500)/1000)
    linarith
  calc min 1 ((n:ℚ)/200) * (1 - max 0 (((n:ℚ) - 500)/1000))
      ≤ min 1 ((n:ℚ)/200) * 1 := mul_le_mul_of_nonneg_left h2 h1
    _ ≤ 1 := by simpa using min_le_left (1:ℚ) ((n:ℚ)/200)

theorem calculate_insight_quality_le_one (insight context : String) :
    calculate_insight_quality insight context ≤ 1 := by
  have h1 := lengthScore_le_one insight.length
  have h2 := (specificityScore_bounds insight).2
  have h3 : codeScore insight ≤ 1 := by
    rcases codeScore_cases insight with h | h <;> rw [h] <;> norm_num
  have h4 := (actionScore_bounds insight).2
  unfold calculate_insight_quality
  linarith

theorem isPrefixL_replicate_false (a : Char) (as : List Char) (c : Char)
    (h : (a == c) = false) :
    ∀ k, isPrefixL (a :: as) (List.replicate k c) = false := by
  intro k
  cases k with
  | zero => rfl
  | succ k => simp [List.replicate_succ, isPrefixL, h]

theorem isInfixL_replicate_false (a : Char) (as : List Char) (c : Char)
    (h : (a == c) = false) :
    ∀ k, isInfixL (a :: as) (List.replicate k c) = false := by
  intro k
  induction k with
  | zero => rfl
  | succ k ih =>
    rw [List.replicate_succ]
    simp only [isInfixL, isPrefixL, h, Bool.false_and, Bool.false_or]
    exact ih

theorem isInfixL_replicate_false_head (n : List Char) (c : Char)
    (hne : n ≠ []) (h : n.headI ≠ c) (k : Nat) :
    isInfixL n (List.replicate k c) = false := by
  cases n with
  | nil => exact absurd rfl hne
  | cons a as =>
    exact isInfixL_replicate_false a as c
      (beq_eq_false_iff_ne.mpr (by simpa using h)) k

theorem filter_cons_false {α : Type} (p : α → Bool) (a : α) (l : List α)
    (h : p a = false) : (a :: l).filter p = l.filter p := by
  simp [List.filter_cons, h]

/-- C5 counterexample: for a 2100-character insight with no matching
keywords, the length factor is `1 * (1 - 1600/1000) = -3/5`, so the computed
quality score is `(-3/5 + 0 + 1/2 + 0)/4 = -1/40 < 0` — the quality score
is not always in [0,1]. -/
theorem insight_quality_negative_cex :
    calculate_insight_quality ⟨List.replicate 2100 'z'⟩ "query" < 0 := by
  have hdata : (pyLower ⟨List.replicate 2100 'z'⟩).data
      = List.replicate 2100 'z' := by
    show (List.replicate 2100 'z').map lowerChar = List.replicate 2100 'z'
    rw [List.map_replicate, show lowerChar 'z' = 'z' from by decide]
  have hs1 : isInfixL (pyLower "algorithm").data (List.replicate 2100 'z') = false :=
    isInfixL_replicate_false_head _ 'z' (by decide) (by decide) 2100
  have hs2 : isInfixL (pyLower "pattern").data (List.replicate 2100 'z') = false :=
    isInfixL_replicate_false_head _ 'z' (by decide) (by decide) 2100
  have hs3 : isInfixL (pyLower "optimization").data (List.replicate 2100 'z') = false :=
    isInfixL_replicate_false_head _ 'z' (by decide) (by decide) 2100
  have hs4 : isInfixL (pyLower "error").data (List.replicate 2100 'z') = false :=
    isInfixL_replicate_false_head _ 'z' (by decide) (by decide) 2100
  have hs5 : isInfixL (pyLower "solution").data (List.replicate 2100 'z') = false :=
    isInfixL_replicate_false_head _ 'z' (by decide) (by decide) 2100
  have hs6 : isInfixL (pyLower "approach").data (List.replicate 2100 'z') = false :=
    isInfixL_replicate_false_head _ 'z' (by decide) (by decide) 2100
  have ha1 : isInfixL (pyLower "implement").data (List.replicate 2100 'z') = false :=
    isInfixL_replicate_false_head _ 'z' (by decide) (by decide) 2100
  have ha2 : isInfixL (pyLower "use").data (List.replicate 2100 'z') = false :=
    isInfixL_replicate_false_head _ 'z' (by decide) (by decide) 2100
  have ha3 : isInfixL (pyLower "apply").data (List.replicate 2100 'z') = false :=
    isInfixL_replicate_false_head _ 'z' (by decide) (by decide) 2100
  have ha4 : isInfixL (pyLower "consider").data (List.replicate 2100 'z') = false :=
    isInfixL_replicate_false_head _ 'z' (by decide) (by decide) 2100
  have ha5 : isInfixL (pyLower "avoid").data (List.replicate 2100 'z') = false :=
    isInfixL_replicate_false_head _ 'z' (by decide) (by decide) 2100
  have ha6 : isInfixL (pyLower "ensure").data (List.replicate 2100 'z') = false :=
    isInfixL_replicate_false_head _ 'z' (by decide) (by decide) 2100
  have ha7 : isInfixL (pyLower "check").data (List.replicate 2100 'z') = false :=
    isInfixL_replicate_false_head _ 'z' (by decide) (by decide) 2100
  have hc1 : isInfixL "```".data (List.replicate 2100 'z') = false :=
    isInfixL_replicate_false_head _ 'z' (by decide) (by decide) 2100
  have hc2 : isInfixL "def ".data (List.replicate 2100 'z') = false :=
    isInfixL_replicate_false_head _ 'z' (by decide) (by decide) 2100
  have hc3 : isInfixL "class ".data (List.replicate 2100 'z') = false :=
    isInfixL_replicate_false_head _ 'z' (by decide) (by decide) 2100
  have hspec : specificityScore ⟨List.replicate 2100 'z'⟩ = 0 := by
    rw [specificityScore]
    simp only [hdata]
    rw [show List.filter
        (fun t => isInfixL (pyLower t).data (List.replicate 2100 'z'))
        specific_terms = [] from by
      simp only [specific_terms]
      rw [filter_cons_false
          (fun t => isInfixL (pyLower t).data (List.replicate 2100 'z'))
          "algorithm" _ hs1,
        filter_cons_false
          (fun t => isInfixL (pyLower t).data (List.replicate 2100 'z'))
          "pattern" _ hs2,
        filter_cons_false
          (fun t => isInfixL (pyLower t).data (List.replicate 2100 'z'))
          "optimization" _ hs3,
        filter_cons_false
          (fun t => isInfixL (pyLower t).data (List.replicate 2100 'z'))
          "error" _ hs4,
        filter_cons_false
          (fun t => isInfixL (pyLower t).data (List.replicate 2100 'z'))
          "solution" _ hs5,
        filter_cons_false
          (fun t => isInfixL (pyLower t).data (List.replicate 2100 'z'))
          "approach" _ hs6, List.filter_nil]]
    norm_num [specific_terms]
  have hact : actionScore ⟨List.replicate 2100 'z'⟩ = 0 := by
    rw [actionScore]
    simp only [hdata]
    rw [show List.filter
        (fun w => isInfixL (pyLower w).data (List.replicate 2100 'z'))
        action_words = [] from by
      simp only [action_words]
      rw [filter_cons_false
          (fun w => isInfixL (pyLower w).data (List.replicate 2100 'z'))
          "implement" _ ha1,
        filter_cons_false
          (fun w => isInfixL (pyLower w).data (List.replicate 2100 'z'))
          "use" _ ha2,
        filter_cons_false
          (fun w => isInfixL (pyLower w).data (List.replicate 2100 'z'))
          "apply" _ ha3,
        filter_cons_false
          (fun w => isInfixL (pyLower w).data (List.replicate 2100 'z'))
          "consider" _ ha4,
        filter_cons_false
          (fun w => isInfixL (pyLower w).data (List.replicate 2100 'z'))
          "avoid" _ ha5,
        filter_cons_false
          (fun w => isInfixL (pyLower w).data (List.replicate 2100 'z'))
          "ensure" _ ha6,
        filter_cons_false
          (fun w => isInfixL (pyLower w).data (List.replicate 2100 'z'))
          "check" _ ha7, List.filter_nil]]
    rw [show ((([] : List String).length : ℚ)) / 3 = 0 by norm_num]
    exact min_eq_right (by norm_num)
  have hcode : codeScore ⟨List.replicate 2100 'z'⟩ = 1/2 := by
    rw [codeScore]
    rw [show (⟨List.replicate 2100 'z'⟩ : String).data
        = List.replicate 2100 'z' from rfl]
    rw [hc1, hc2, hc3]
    rfl
  have hlen : (⟨List.replicate 2100 'z'⟩ : String).length = 2100 := by
    show (List.replicate 2100 'z').length = 2100
    rw [List.length_replicate]
  have hls : lengthScore 2100 = -(3/5 : ℚ) := by
    rw [lengthScore]
    rw [show ((2100 : Nat) : ℚ) = 2100 from by norm_num]
    rw [min_eq_left (by norm_num : (1:ℚ) ≤ 2100/200)]
    rw [max_eq_right (by norm_num : (0:ℚ) ≤ ((2100:ℚ) - 500)/1000)]
    norm_num
  simp only [calculate_insight_quality]
  rw [hlen, hls, hspec, hcode, hact]
  norm_num

/-- C5 (amended): the quality score is the unweighted mean of the four
sub-scores, and the specificity, structural and actionability sub-scores, as
well as the context similarity, all lie in [0,1]; but the length sub-score
is unbounded below for long content (it only satisfies the upper bound 1),
so the quality score itself is only bounded above by 1 and can be negative,
as the counterexample shows. -/
theorem insight_quality_amended (insight context : String) :
    (0 ≤ specificityScore insight ∧ specificityScore insight ≤ 1)
    ∧ (codeScore insight = 1 ∨ codeScore insight = 1/2)
    ∧ (0 ≤ actionScore insight ∧ actionScore insight ≤ 1)
    ∧ (0 ≤ calculate_context_similarity insight context
        ∧ calculate_context_similarity insight context ≤ 1)
    ∧ calculate_insight_quality insight context
        = (lengthScore insight.length + specificityScore insight
            + codeScore insight + actionScore insight) / 4
    ∧ lengthScore insight.length ≤ 1
    ∧ calculate_insight_quality insight context ≤ 1 :=
  ⟨specificityScore_bounds insight, codeScore_cases insight,
   actionScore_bounds insight, context_similarity_bounds insight context,
   rfl, lengthScore_le_one insight.length,
   calculate_insight_quality_le_one insight context⟩

/-- C6: `filter_insights` (1) drops exactly the candidates whose recomputed
quality score is below `min_quality_score` (the survivor list is a
permutation of output plus rest), (2) orders the survivors by the combined
score 0.4·quality + 0.3·context_similarity + 0.2·success_rate (default 1.0
if absent) + 0.1·min(1, usage_count/10) (default 0 if absent) descending,
and (3) returns at most `max_insights` entries, the top-ranked ones (every
dropped survivor scores no higher than every returned one). -/
theorem filter_insights_spec (f : InsightFilter) (insights : List FilterCand)
    (context : String) :
    (filter_insights f insights context).length
        = min f.max_insights
            ((insights.map (scoreCand context)).filter
              (fun i => f.min_quality_score ≤ i.quality_score)).length
    ∧ (∀ x ∈ filter_insights f insights context,
        f.min_quality_score ≤ x.quality_score)
    ∧ List.Pairwise (fun a b => combinedScore b ≤ combinedScore a)
        (filter_insights f insights context)
    ∧ ∃ rest,
        List.Perm (filter_insights f insights context ++ rest)
          ((insights.map (scoreCand context)).filter
            (fun i => f.min_quality_score ≤ i.quality_score))
        ∧ ∀ x ∈ rest, ∀ y ∈ filter_insights f insights context,
            combinedScore x ≤ combinedScore y := by
  refine ⟨?_, ?_, ?_, ?_⟩
  · show ((List.insertionSort filterDesc _).take f.max_insights).length = _
    rw [List.length_take, List.length_insertionSort]
  · intro x hx
    have hx1 : x ∈ List.insertionSort filterDesc
        ((insights.map (scoreCand context)).filter
          (fun i => f.min_quality_score ≤ i.quality_score)) :=
      List.mem_of_mem_take hx
    have hx2 : x ∈ (insights.map (scoreCand context)).filter
        (fun i => f.min_quality_score ≤ i.quality_score) :=
      (List.perm_insertionSort filterDesc _).mem_iff.mp hx1
    have hx3 := (List.mem_filter.mp hx2).2
    exact of_decide_eq_true hx3
  · exact List.Pairwise.sublist (List.take_sublist _ _)
      (List.sorted_insertionSort filterDesc _)
  · refine ⟨(List.insertionSort filterDesc
        ((insights.map (scoreCand context)).filter
          (fun i => f.min_quality_score ≤ i.quality_score))).drop
        f.max_insights, ?_, ?_⟩
    · have hp := List.perm_insertionSort filterDesc
        ((insights.map (scoreCand context)).filter
          (fun i => f.min_quality_score ≤ i.quality_score))
      rw [← List.take_append_drop f.max_insights
        (List.insertionSort filterDesc
          ((insights.map (scoreCand context)).filter
            (fun i => f.min_quality_score ≤ i.quality_score)))] at hp
      exact hp
    · have hp : List.Pairwise filterDesc (List.insertionSort filterDesc
          ((insights.map (scoreCand context)).filter
            (fun i => f.min_quality_score ≤ i.quality_score))) :=
        List.sorted_insertionSort filterDesc _
      rw [← List.take_append_drop f.max_insights
        (List.insertionSort filterDesc
          ((insights.map (scoreCand context)).filter
            (fun i => f.min_quality_score ≤ i.quality_score)))] at hp
      have hcross := (List.pairwise_append.mp hp).2.2
      intro x hx y hy
      exact hcross y hy x hx

/-- Witness for C6 at a concrete filter configuration and candidate list. -/
theorem filter_insights_spec_witness :
    (filter_insights ⟨0, 2⟩ [] "ctx").length
      = min 2 ((([] : List FilterCand).map (scoreCand "ctx")).filter
          (fun i => (0:ℚ) ≤ i.quality_score)).length :=
  (filter_insights_spec ⟨0, 2⟩ [] "ctx").1

theorem listMaxNat_cons (a : Nat) (l : List Nat) :
    listMaxNat (a :: l) = max a (listMaxNat l) := rfl

theorem find?_cons_pos' {α : Type} (p : α → Bool) (a : α) (l : List α)
    (h : p a = true) : List.find? p (a :: l) = some a :=
  List.find?_cons_of_pos l h

theorem find?_cons_neg' {α : Type} (p : α → Bool) (a : α) (l : List α)
    (h : p a = false) : List.find? p (a :: l) = List.find? p l :=
  List.find?_cons_of_neg l (by simp [h])

/-- Python's first-maximum fold agrees with "the first element whose score
equals the maximum". -/
theorem maxFirst_eq_find? :
    ∀ (xs : List (String × Nat)) (x : String × Nat),
      some (maxFirst x xs)
        = (x :: xs).find?
            (fun p => p.2 == listMaxNat ((x :: xs).map Prod.snd)) := by
  intro xs
  induction xs with
  | nil =>
    intro x
    have h : (x.2 == listMaxNat ([x].map Prod.snd)) = true := by
      simp [listMaxNat]
    simp only [maxFirst]
    rw [find?_cons_pos'
      (fun p => p.2 == listMaxNat (List.map Prod.snd [x])) x [] h]
  | cons y ys ih =>
    intro x
    by_cases hlt : x.2 < y.2
    · have hme : maxFirst x (y :: ys) = maxFirst y ys := by
        simp only [maxFirst, if_pos hlt]
      have hMle : x.2 < listMaxNat ((y :: ys).map Prod.snd) :=
        lt_of_lt_of_le hlt
          (by rw [List.map_cons, listMaxNat_cons]; exact Nat.le_max_left _ _)
      have hMeq : listMaxNat ((x :: y :: ys).map Prod.snd)
          = listMaxNat ((y :: ys).map Prod.snd) := by
        rw [List.map_cons, listMaxNat_cons]
        exact Nat.max_eq_right (le_of_lt hMle)
      rw [hme, ih y]
      simp only [hMeq]
      rw [find?_cons_neg'
        (fun p => p.2 == listMaxNat (List.map Prod.snd (y :: ys))) x (y :: ys)
        (beq_eq_false_iff_ne.mpr (Nat.ne_of_lt hMle))]
    · have hyx : y.2 ≤ x.2 := Nat.le_of_not_lt hlt
      have hme : maxFirst x (y :: ys) = maxFirst x ys := by
        simp only [maxFirst, if_neg hlt]
      have hMeq : listMaxNat ((x :: y :: ys).map Prod.snd)
          = listMaxNat ((x :: ys).map Prod.snd) := by
        simp only [List.map_cons, listMaxNat_cons]
        rw [← Nat.max_assoc, Nat.max_eq_left hyx]
      rw [hme, ih x]
      simp only [hMeq]
      cases hx : (x.2 == listMaxNat ((x :: ys).map Prod.snd)) with
      | true =>
        rw [find?_cons_pos'
            (fun p => p.2 == listMaxNat (List.map Prod.snd (x :: ys))) x ys hx,
          find?_cons_pos'
            (fun p => p.2 == listMaxNat (List.map Prod.snd (x :: ys))) x
            (y :: ys) hx]
      | false =>
        have hxlt : x.2 < listMaxNat ((x :: ys).map Prod.snd) := by
          have hle : x.2 ≤ listMaxNat ((x :: ys).map Prod.snd) := by
            rw [List.map_cons, listMaxNat_cons]
            exact Nat.le_max_left _ _
          exact Nat.lt_of_le_of_ne hle (beq_eq_false_iff_ne.mp hx)
        rw [find?_cons_neg'
            (fun p => p.2 == listMaxNat (List.map Prod.snd (x :: ys))) x ys hx,
          find?_cons_neg'
            (fun p => p.2 == listMaxNat (List.map Prod.snd (x :: ys))) x
            (y :: ys) hx,
          find?_cons_neg'
            (fun p => p.2 == listMaxNat (List.map Prod.snd (x :: ys))) y ys
            (beq_eq_false_iff_ne.mpr
              (Nat.ne_of_lt (Nat.lt_of_le_of_lt hyx hxlt)))]

/-- The code's argmax loop equals the spec-side first-of-max formulation. -/
theorem classify_domain_eq_spec (content : String) :
    classify_domain content = classifySpec content := by
  unfold classify_domain classifySpec
  cases hsc : domainScores content with
  | nil => rfl
  | cons x xs => rw [← maxFirst_eq_find? xs x]

/-- C7: `classify_domain` scores each domain by counting its keywords in
the lower-cased text and returns the first domain attaining the highest
positive score in declaration order (proved against the independent
first-of-max formulation `classifySpec`); it returns "general" when no
keyword matches; and classifying "binary search implementation" yields
"algorithms". Determinism holds because the function is pure. -/
theorem classify_domain_correct :
    (∀ content, classify_domain content = classifySpec content)
    ∧ classify_domain "binary search implementation" = "algorithms"
    ∧ ∀ content,
        (∀ dp ∈ domain_patterns, domainScore (pyLower content) dp.2 = 0) →
        classify_domain content = "general" := by
  refine ⟨classify_domain_eq_spec, by decide, ?_⟩
  intro content h
  have hz : domainScores content = [] := by
    unfold domainScores
    rw [List.filterMap_eq_nil_iff]
    intro dp hdp
    rw [h dp hdp]
    rfl
  unfold classify_domain
  rw [hz]

/-- Witness for C7: a text matching no keyword classifies as "general". -/
theorem classify_domain_correct_witness :
    (∀ dp ∈ domain_patterns, domainScore (pyLower "zzzz") dp.2 = 0)
    ∧ classify_domain "zzzz" = "general" :=
  ⟨by decide, classify_domain_correct.2.2 "zzzz" (by decide)⟩

/-- The import loop counts one insert per bundle record (every model insert
succeeds) and produces, in order, the constructed entries with their
`domain` overwritten by `classify_domain` of the content. -/
theorem importGo_spec (org : String) (now : Nat) (fresh : Nat → String) :
    ∀ (recs : List BundleRecord) (k : Nat) (p : DomainPool),
      (importGo org now fresh k p recs).1 = recs.length
      ∧ (importGo org now fresh k p recs).2.1
          = (recs.enumFrom k).map (fun pr =>
              { id := fresh pr.1, content := pr.2.content,
                metadata := pr.2.metadata, timestamp := now,
                agent_id := "federated", tags := pr.2.tags,
                importance_score := 0,
                domain := classify_domain pr.2.content,
                quality_score := pr.2.quality_score, usage_count := 0,
                success_rate := pr.2.success_rate, context_similarity := 0,
                federation_source := some org }) := by
  intro recs
  induction recs with
  | nil => intro k p; exact ⟨rfl, rfl⟩
  | cons rec rest ih =>
    intro k p
    have h1 : (importGo org now fresh k p (rec :: rest)).1
        = 1 + (importGo org now fresh (k + 1)
            (store_domain_insight p (mkImported org now (fresh k) rec)).2.2
            rest).1 := rfl
    have h2 : (importGo org now fresh k p (rec :: rest)).2.1
        = (store_domain_insight p (mkImported org now (fresh k) rec)).2.1
            :: (importGo org now fresh (k + 1)
              (store_domain_insight p (mkImported org now (fresh k) rec)).2.2
              rest).2.1 := rfl
    have h3 : (store_domain_insight p (mkImported org now (fresh k) rec)).2.1
        = { id := fresh k, content := rec.content, metadata := rec.metadata,
            timestamp := now, agent_id := "federated", tags := rec.tags,
            importance_score := 0,
            domain := classify_domain rec.content,
            quality_score := rec.quality_score, usage_count := 0,
            success_rate := rec.success_rate, context_similarity := 0,
            federation_source := some org } := rfl
    constructor
    · rw [h1, (ih (k + 1) _).1, List.length_cons, Nat.add_comm]
    · rw [h2, h3, (ih (k + 1) _).2, List.enumFrom_cons, List.map_cons]

/-- C8 counterexample: export one entry whose `domain` field is "general"
but whose content classifies as "algorithms"; the imported entry's `domain`
is overwritten by `store_domain_insight`'s re-classification and does not
match the original's. -/
theorem federation_import_reclassifies_cex :
    ((import_insights
        (export_insights 0
          [{ id := "o1", content := "binary search implementation",
             metadata := [], timestamp := 0, agent_id := "alice",
             tags := ["t"], importance_score := 0, domain := "general",
             quality_score := 1, usage_count := 0, success_rate := 1,
             context_similarity := 0, federation_source := none }]
          "orgA" 0)
        ⟨[]⟩ (fun _ => "f1") 5).2.1.map EnhancedMemoryEntry.domain
      = ["algorithms"])
    ∧ ((import_insights
        (export_insights 0
          [{ id := "o1", content := "binary search implementation",
             metadata := [], timestamp := 0, agent_id := "alice",
             tags := ["t"], importance_score := 0, domain := "general",
             quality_score := 1, usage_count := 0, success_rate := 1,
             context_similarity := 0, federation_source := none }]
          "orgA" 0)
        ⟨[]⟩ (fun _ => "f1") 5).2.1.map EnhancedMemoryEntry.domain
      ≠ ["general"]) := by
  constructor
  · decide
  · decide

/-- C8 (amended): the bundle contains exactly the serializations of the
entries whose `quality_score` meets the threshold (in particular every
bundled record carries a quality score at or above it); importing inserts,
per bundle record and in order, a new entry with the fresh id, agent_id
"federated", `federation_source` equal to the exporting organization, the
original content, tags and metadata, and `domain` re-computed by
`classify_domain` from the content (which equals the original's domain only
when that domain matches the content's classification); the returned count
is the number of bundled records. -/
theorem federation_roundtrip_amended (threshold : ℚ)
    (insights : List EnhancedMemoryEntry) (org : String)
    (tnow inow : Nat) (fresh : Nat → String) (pool : DomainPool) :
    (export_insights threshold insights org tnow).insights
        = (insights.filter (fun i => threshold ≤ i.quality_score)).map
            bundleRecordOf
    ∧ (∀ r ∈ (export_insights threshold insights org tnow).insights,
        threshold ≤ r.quality_score)
    ∧ (import_insights (export_insights threshold insights org tnow) pool
          fresh inow).1
        = (export_insights threshold insights org tnow).insights.length
    ∧ (import_insights (export_insights threshold insights org tnow) pool
          fresh inow).2.1
        = ((export_insights threshold insights org tnow).insights.enum).map
            (fun pr =>
              { id := fresh pr.1, content := pr.2.content,
                metadata := pr.2.metadata, timestamp := inow,
                agent_id := "federated", tags := pr.2.tags,
                importance_score := 0,
                domain := classify_domain pr.2.content,
                quality_score := pr.2.quality_score, usage_count := 0,
                success_rate := pr.2.success_rate, context_similarity := 0,
                federation_source := some org }) := by
  refine ⟨rfl, ?_, ?_, ?_⟩
  · intro r hr
    rcases List.mem_map.mp hr with ⟨i, hi, hri⟩
    have hq := of_decide_eq_true (List.mem_filter.mp hi).2
    rw [← hri]
    exact hq
  · exact (importGo_spec org inow fresh
      (export_insights threshold insights org tnow).insights 0 pool).1
  · exact (importGo_spec org inow fresh
      (export_insights threshold insights org tnow).insights 0 pool).2

/-- Witness for the amended C8 at a concrete bundle. -/
theorem federation_roundtrip_amended_witness :
    (import_insights (export_insights 0 [] "orgA" 0) ⟨[]⟩ (fun _ => "f") 5).1
      = (export_insights 0 [] "orgA" 0).insights.length :=
  (federation_roundtrip_amended 0 [] "orgA" 0 5 (fun _ => "f") ⟨[]⟩).2.2.1

end MultiLLM
